import Mathlib

/-!
# ShredSpace core: directory scanning and secure file erasure

Shallow embedding of the two worker classes of `src/pyqt-tree-scanner.py`
(the iteration at lines 1898-1971 cited by the claims, together with its
caller `ShredSpaceApp.secure_delete_file` / `validate_passes` at lines
2322-2352):

* `FileScannerThread.run` walks one directory listing, skipping hidden
  entries, collecting `(name, size)` for plain files, and emitting an
  integer progress value after each visible entry.
* `SecureDeleteThread.run` dispatches on a method string to `zero_fill`,
  `random_fill`, `dod_standard` or `aes_wipe` and then calls `os.remove`.

Conventions: Python byte values are naturals below 256 and file contents
are lists of bytes.  The float `increment = 100 / total_files` of the
scanner is modelled in exact rational arithmetic; the concrete listings
used in the counterexamples only produce dyadic values on which binary64
evaluation is exact, so model and program agree there.  Python `int(x)`
on a non-negative value truncates, i.e. is the floor.  The files are
opened with mode `"ba+"` (append): every `f.write` adds its buffer at the
current end of file no matter what `f.seek(0)` set, while `f.read()` does
read from the seek position; the embedding encodes exactly that.
`os.urandom` is modelled as an ambient byte source `R : Nat → Nat → Nat`
(call index and byte index); the AES-CFB encryptor of the `cryptography`
package is an ambient function of key, IV and plaintext.  OS failures are
injected through the state: `writeErr` is the errno an `f.write` call
raises (`none` when writes succeed) and `unlinkErr` the errno `os.remove`
raises; the Python code catches neither, so a raised errno is the
uncaught result of `run`.
-/

namespace ShredSpace

/-- One entry of `os.listdir`: the file name, whether `os.path.isfile`
holds for its path, and its `os.stat(...).st_size` at scan time. -/
structure DirEntry where
  name : String
  isFile : Bool
  size : Nat
deriving DecidableEq

/-- Python's test `filename.startswith('.')`, written on the character
list of the name so that it evaluates in the kernel. -/
def startsWithDot (s : String) : Bool :=
  match s.data with
  | [] => false
  | c :: _ => c = '.'

/-- Model of `total_files = len([f for f in os.listdir(d) if not
f.startswith('.')])`: the count of every non-hidden entry of the listing,
sub-directories included. -/
def total_files (l : List DirEntry) : Nat :=
  (l.filter (fun e => !(startsWithDot e.name))).length

/-- Model of `increment = 100 / total_files if total_files > 0 else 1`,
in exact rational arithmetic. -/
def increment (l : List DirEntry) : ℚ :=
  if 0 < total_files l then 100 / (total_files l : ℚ) else 1

/-- Body of the `for index, filename in enumerate(os.listdir(...))` loop
of `FileScannerThread.run`: a hidden name is skipped by `continue` before
any emission, otherwise the entry is appended to the result columns when
`os.path.isfile` holds, and `int((index + 1) * increment)` is emitted.
The first component is the stream of emitted progress values, the second
the accumulated `(name, size)` rows of the final data frame. -/
def scanLoop (inc : ℚ) : Nat → List DirEntry → List ℤ × List (String × Nat)
  | _, [] => ([], [])
  | index, e :: rest =>
    if startsWithDot e.name then
      scanLoop inc (index + 1) rest
    else
      (⌊((index + 1 : ℕ) : ℚ) * inc⌋ :: (scanLoop inc (index + 1) rest).1,
       (if e.isFile then [(e.name, e.size)] else []) ++ (scanLoop inc (index + 1) rest).2)

/-- Progress values emitted by one `FileScannerThread.run` over a
directory listing. -/
def scanEmits (l : List DirEntry) : List ℤ :=
  (scanLoop (increment l) 0 l).1

/-- The single result emitted by `FileScannerThread.run` at the end: the
`(name, size)` rows of the `DataFrame`. -/
def scanResult (l : List DirEntry) : List (String × Nat) :=
  (scanLoop (increment l) 0 l).2

/-- Variant of the emission stream of `scanLoop` with the rational floor
replaced by natural division; `scanLoop_fst_div` proves it equal. -/
def scanLoopDiv (t : Nat) : Nat → List DirEntry → List ℤ
  | _, [] => []
  | index, e :: rest =>
    if startsWithDot e.name then
      scanLoopDiv t (index + 1) rest
    else
      (((100 * (index + 1)) / t : ℕ) : ℤ) :: scanLoopDiv t (index + 1) rest

/-- Banker's rounding on rationals, the semantics of Python's built-in
round.  This definition follows the SPEC's words — the spec computes the
progress value "as round((index+1) / total_visible_files * 100)" — and is
the claim side of the comparison, not part of the code model. -/
def pyRound (q : ℚ) : ℤ :=
  if q - ⌊q⌋ < 1 / 2 then ⌊q⌋
  else if 1 / 2 < q - ⌊q⌋ then ⌊q⌋ + 1
  else if 2 ∣ ⌊q⌋ then ⌊q⌋ else ⌊q⌋ + 1

/-- Progress sequence that claim C5 asserts for a directory with n
visible regular files, following the spec's words. -/
def specClaimedProgress (n : Nat) : List ℤ :=
  (List.range n).map (fun k => pyRound (((k + 1 : ℕ) : ℚ) / (n : ℚ) * 100))

/-- Listing used by the C5 counterexample: one hidden file followed by
eight visible regular files. -/
def listingC5 : List DirEntry :=
  [⟨".h", true, 5⟩, ⟨"f1", true, 1⟩, ⟨"f2", true, 2⟩, ⟨"f3", true, 3⟩,
   ⟨"f4", true, 4⟩, ⟨"f5", true, 5⟩, ⟨"f6", true, 6⟩, ⟨"f7", true, 7⟩,
   ⟨"f8", true, 8⟩]

/-- Byte strings: Python bytes modelled as lists of naturals below 256. -/
abbrev Bytes := List Nat

/-- Model of os.urandom(n): n bytes drawn from the ambient random source
R at a given call index. -/
def urandomBytes (R : Nat → Nat → Nat) (call n : Nat) : Bytes :=
  (List.range n).map (fun i => R call i % 256)

/-- Outcome of one fill helper of SecureDeleteThread on the file it
opened with mode "ba+": the buffers passed to f.write in order, the file
content when the with-block ends, and the errno of the OSError the first
failing write raised (none when no write failed). -/
structure FillResult where
  trace : List Bytes
  content : Bytes
  err : Option Nat
deriving DecidableEq

/-- Model of SecureDeleteThread.zero_fill (lines 1943-1947): for each of
passes iterations it calls f.seek(0) and then writes a buffer of
os.path.getsize(path) zero bytes.  The size is re-read from the file on
every pass, and because the file was opened with mode "ba+" (append) the
buffer lands at the current end of file, the seek notwithstanding.  wErr
is the errno an f.write call raises (the loop stops at the first raise);
none means writes succeed. -/
def zero_fill (wErr : Option Nat) : Nat → Bytes → FillResult
  | 0, c => ⟨[], c, none⟩
  | passes + 1, c =>
    match wErr with
    | some e => ⟨[], c, some e⟩
    | none =>
      let buf : Bytes := List.replicate c.length 0
      let r := zero_fill none passes (c ++ buf)
      ⟨buf :: r.trace, r.content, r.err⟩

/-- Model of SecureDeleteThread.random_fill (lines 1949-1953): as
zero_fill, but each pass writes os.urandom(os.path.getsize(path)); call
counts the urandom invocations made so far. -/
def random_fill (R : Nat → Nat → Nat) (wErr : Option Nat) :
    Nat → Nat → Bytes → FillResult
  | _, 0, c => ⟨[], c, none⟩
  | call, passes + 1, c =>
    match wErr with
    | some e => ⟨[], c, some e⟩
    | none =>
      let buf := urandomBytes R call c.length
      let r := random_fill R none (call + 1) passes (c ++ buf)
      ⟨buf :: r.trace, r.content, r.err⟩

/-- Model of SecureDeleteThread.dod_standard (lines 1955-1959): its body
is the random_fill loop with the pass count fixed at the literal 3 (the
comment in the source reads "DoD 5220.22-M standard is 3 passes"); the
passes attribute of the thread is not consulted. -/
def dod_standard (R : Nat → Nat → Nat) (wErr : Option Nat) (call : Nat)
    (c : Bytes) : FillResult :=
  random_fill R wErr call 3 c

/-- Model of SecureDeleteThread.aes_wipe (lines 1961-1971): key =
os.urandom(32), iv = os.urandom(16); then, inside the "ba+" file,
f.seek(0); data = f.read() — the whole content, reads do honour the
seek; encrypted_data = encryptor.update(data) + encryptor.finalize();
f.seek(0); f.write(encrypted_data) — appended at the end of file because
of the append mode.  enc is the ambient AES-256-CFB encryptor, a
function of key, IV and plaintext; key and iv are bound to nothing else
and are discarded when the call returns. -/
def aes_wipe (R : Nat → Nat → Nat) (enc : Bytes → Bytes → Bytes → Bytes)
    (wErr : Option Nat) (c : Bytes) : FillResult :=
  let key := urandomBytes R 0 32
  let iv := urandomBytes R 1 16
  let encrypted := enc key iv c
  match wErr with
  | some e => ⟨[], c, some e⟩
  | none => ⟨[encrypted], c ++ encrypted, none⟩

/-- Environment of one SecureDeleteThread run: the target file's content
(none when absent), the errno an f.write call raises (none when writes
succeed) and the errno os.remove raises (none when the unlink succeeds). -/
structure FsState where
  contents : Option Bytes
  writeErr : Option Nat
  unlinkErr : Option Nat
deriving DecidableEq

/-- Observable outcome of SecureDeleteThread.run: the buffers written,
the file at its path afterwards (none when removed) and the errno of the
uncaught OSError run raised (none when it returned normally).  run has no
try/except, so any raise propagates out of the thread unchanged — there
is no other error reporting channel in the class. -/
structure RunResult where
  trace : List Bytes
  fs : Option Bytes
  err : Option Nat
deriving DecidableEq

/-- Model of the unconditional os.remove(self.file_path) at the end of
run together with error propagation: a fill error propagates before the
unlink is attempted, an unlink error propagates with the written content
still on disk, and otherwise the directory entry is gone. -/
def removeAfter (fr : FillResult) (st : FsState) : RunResult :=
  match fr.err with
  | some e => ⟨fr.trace, some fr.content, some e⟩
  | none =>
    match st.unlinkErr with
    | some e => ⟨fr.trace, some fr.content, some e⟩
    | none => ⟨fr.trace, none, none⟩

/-- Model of SecureDeleteThread.run (lines 1932-1941): dispatch on the
method string over 'zero', 'random', 'dod' and 'aes'; any other string
matches no branch and falls through to the unconditional os.remove.
Opening with mode "ba+" creates a missing file as empty, hence
contents.getD []. -/
def runThread (R : Nat → Nat → Nat) (enc : Bytes → Bytes → Bytes → Bytes)
    (method : String) (passes : Nat) (st : FsState) : RunResult :=
  let c := st.contents.getD []
  if method = "zero" then removeAfter (zero_fill st.writeErr passes c) st
  else if method = "random" then removeAfter (random_fill R st.writeErr 0 passes c) st
  else if method = "dod" then removeAfter (dod_standard R st.writeErr 0 c) st
  else if method = "aes" then removeAfter (aes_wipe R enc st.writeErr c) st
  else
    match st.unlinkErr with
    | some e => ⟨[], st.contents, some e⟩
    | none => ⟨[], none, none⟩

/-- Model of ShredSpaceApp.validate_passes (lines 2348-2352): true
exactly when 1 <= passes <= 99; on false the GUI shows an "Invalid
Input" warning and secure_delete_file returns without any I/O. -/
def validate_passes (p : Nat) : Bool :=
  decide (1 ≤ p) && decide (p ≤ 99)

/-- Model of ShredSpaceApp.secure_delete_file (lines 2322-2337): the
pass count is validated before the SecureDeleteThread is constructed;
none records that no thread ran and the filesystem was untouched. -/
def secure_delete_file (R : Nat → Nat → Nat) (enc : Bytes → Bytes → Bytes → Bytes)
    (method : String) (passes : Nat) (st : FsState) : Option RunResult :=
  if validate_passes passes then some (runThread R enc method passes st) else none

/-- Fixed all-zero random source, for closed evaluations. -/
def R0 : Nat → Nat → Nat := fun _ _ => 0

/-- Concrete length-preserving stand-in for the AES-CFB encryptor, for
closed evaluations. -/
def encShift : Bytes → Bytes → Bytes → Bytes :=
  fun _ _ d => d.map (fun b => (b + 1) % 256)

lemma floor_mul_hundred_div (a t : ℕ) :
    ⌊((a : ℚ)) * (100 / (t : ℚ))⌋ = ((100 * a) / t : ℕ) := by
  rw [mul_div_assoc']
  rw [show ((a : ℚ) * 100) = (((100 * a : ℕ) : ℚ)) by push_cast; ring]
  exact Rat.floor_natCast_div_natCast (100 * a) t

lemma scanLoop_fst_div (t : ℕ) (idx : ℕ) (l : List DirEntry) :
    (scanLoop (100 / (t : ℚ)) idx l).1 = scanLoopDiv t idx l := by
  induction l generalizing idx with
  | nil => rfl
  | cons e rest ih =>
    cases hH : startsWithDot e.name with
    | true => simp [scanLoop, scanLoopDiv, hH, ih]
    | false =>
      simp only [scanLoop, scanLoopDiv, hH, Bool.false_eq_true, if_false]
      rw [floor_mul_hundred_div, ih]

lemma mem_scanLoop_snd (inc : ℚ) (l : List DirEntry) :
    ∀ (idx : ℕ) (x : String × Nat), x ∈ (scanLoop inc idx l).2 →
      ∃ e ∈ l, e.isFile = true ∧ startsWithDot e.name = false ∧ x = (e.name, e.size) := by
  induction l with
  | nil => intro idx x hx; simp [scanLoop] at hx
  | cons e rest ih =>
    intro idx x hx
    cases hH : startsWithDot e.name with
    | true =>
      rw [scanLoop] at hx
      simp only [hH, if_true] at hx
      obtain ⟨d, hd, h⟩ := ih (idx + 1) x hx
      exact ⟨d, List.mem_cons_of_mem e hd, h⟩
    | false =>
      rw [scanLoop] at hx
      simp only [hH, Bool.false_eq_true, if_false] at hx
      rw [List.mem_append] at hx
      rcases hx with hx | hx
      · cases hF : e.isFile with
        | true =>
          simp only [hF, if_true, List.mem_singleton] at hx
          exact ⟨e, List.mem_cons_self e rest, hF, hH, hx⟩
        | false => simp [hF] at hx
      · obtain ⟨d, hd, h⟩ := ih (idx + 1) x hx
        exact ⟨d, List.mem_cons_of_mem e hd, h⟩

lemma scanLoop_all_hidden (inc : ℚ) (l : List DirEntry)
    (h : ∀ e ∈ l, startsWithDot e.name = true) :
    ∀ idx, scanLoop inc idx l = ([], []) := by
  induction l with
  | nil => intro idx; rfl
  | cons e rest ih =>
    intro idx
    rw [scanLoop]
    simp only [h e (List.mem_cons_self e rest), if_true]
    exact ih (fun d hd => h d (List.mem_cons_of_mem e hd)) (idx + 1)

lemma total_files_all_visible (l : List DirEntry)
    (h : ∀ e ∈ l, startsWithDot e.name = false) : total_files l = l.length := by
  unfold total_files
  rw [List.filter_eq_self.mpr]
  intro e he
  simp [h e he]

lemma scanLoopDiv_all_visible (t : ℕ) (l : List DirEntry)
    (h : ∀ e ∈ l, startsWithDot e.name = false) :
    ∀ idx, scanLoopDiv t idx l =
      (List.range l.length).map (fun i => (((100 * (idx + i + 1)) / t : ℕ) : ℤ)) := by
  induction l with
  | nil => intro idx; rfl
  | cons e rest ih =>
    intro idx
    rw [scanLoopDiv]
    simp only [h e (List.mem_cons_self e rest), Bool.false_eq_true, if_false]
    rw [ih (fun d hd => h d (List.mem_cons_of_mem e hd)) (idx + 1)]
    rw [List.length_cons, List.range_succ_eq_map, List.map_cons, List.map_map]
    refine congrArg₂ List.cons (by norm_num) (List.map_congr_left ?_)
    intro i hi
    have harith : idx + 1 + i + 1 = idx + Nat.succ i + 1 := by omega
    simp [Function.comp, harith]

lemma scanLoop_snd_all_visible_files (inc : ℚ) (l : List DirEntry)
    (h : ∀ e ∈ l, startsWithDot e.name = false ∧ e.isFile = true) :
    ∀ idx, (scanLoop inc idx l).2 = l.map (fun e => (e.name, e.size)) := by
  induction l with
  | nil => intro idx; rfl
  | cons e rest ih =>
    intro idx
    have he := h e (List.mem_cons_self e rest)
    rw [scanLoop]
    simp only [he.1, Bool.false_eq_true, if_false, he.2, if_true]
    rw [ih (fun d hd => h d (List.mem_cons_of_mem e hd)) (idx + 1)]
    rfl

/-- C5 counterexample: on a listing with one hidden file followed by
eight visible regular files (so N = 8), the scan emits
[25, 37, 50, 62, 75, 87, 100, 112] — not the claimed
round((index+1)/N*100) sequence [12, 25, 38, 50, 62, 75, 88, 100]; the
index is the position in the full listing (hidden entries included), the
float value is truncated rather than rounded, and the final value 112
lies outside [0, 100]. -/
theorem scan_progress_counterexample :
    scanEmits listingC5 = [25, 37, 50, 62, 75, 87, 100, 112] ∧
    (scanResult listingC5).length = 8 ∧
    specClaimedProgress 8 = [12, 25, 38, 50, 62, 75, 88, 100] ∧
    scanEmits listingC5 ≠ specClaimedProgress ((scanResult listingC5).length) ∧
    (112 : ℤ) ∈ scanEmits listingC5 ∧ ¬((112 : ℤ) ≤ 100) := by
  have ht : total_files listingC5 = 8 := by decide
  have hinc : increment listingC5 = 100 / ((8 : ℕ) : ℚ) := by
    rw [increment, ht]; norm_num
  have h1 : scanEmits listingC5 = [25, 37, 50, 62, 75, 87, 100, 112] := by
    rw [scanEmits, hinc, scanLoop_fst_div]
    decide
  have hres : (scanResult listingC5).length = 8 := by
    rw [scanResult]
    decide
  have hrange : List.range 8 = [0, 1, 2, 3, 4, 5, 6, 7] := by decide
  have hf1 : Int.fract ((25 : ℚ) / 2) = 1 / 2 := by rw [Int.fract]; norm_num
  have hf2 : Int.fract ((75 : ℚ) / 2) = 1 / 2 := by rw [Int.fract]; norm_num
  have hf3 : Int.fract ((125 : ℚ) / 2) = 1 / 2 := by rw [Int.fract]; norm_num
  have hf4 : Int.fract ((175 : ℚ) / 2) = 1 / 2 := by rw [Int.fract]; norm_num
  have h2 : specClaimedProgress 8 = [12, 25, 38, 50, 62, 75, 88, 100] := by
    rw [specClaimedProgress, hrange]
    norm_num [pyRound, hf1, hf2, hf3, hf4]
  refine ⟨h1, hres, h2, ?_, ?_, by decide⟩
  · rw [h1, hres, h2]; decide
  · rw [h1]; decide

/-- C5 (amended): the scan emits one progress value per visible entry of
the full listing (sub-directories included), computed by truncating
(index+1) * (100/total_files) where index runs over the whole listing and
total_files counts all visible entries; on a listing that consists of
N > 0 visible regular files and nothing else this gives exactly N
updates, the i-th being the truncation of (i+1)*100/N, each within
[0, 100] and culminating at 100, together with one result whose N entries
are the stat names and sizes in enumeration order.  (The rational model
is exact arithmetic; Python's binary64 evaluation of 100/N can lower a
value by one unit for some N, e.g. the final update is 99 when N = 97.) -/
theorem scan_progress_amended (l : List DirEntry) (hne : l ≠ [])
    (hvis : ∀ e ∈ l, startsWithDot e.name = false ∧ e.isFile = true) :
    scanEmits l =
      (List.range l.length).map (fun i => (((100 * (i + 1)) / l.length : ℕ) : ℤ)) ∧
    (∀ v ∈ scanEmits l, 0 ≤ v ∧ v ≤ 100) ∧
    (scanEmits l).getLast? = some 100 ∧
    (scanEmits l).length = l.length ∧
    scanResult l = l.map (fun e => (e.name, e.size)) := by
  have hv : ∀ e ∈ l, startsWithDot e.name = false := fun e he => (hvis e he).1
  have ht : total_files l = l.length := total_files_all_visible l hv
  have hpos : 0 < l.length := List.length_pos.mpr hne
  have hinc : increment l = 100 / ((l.length : ℕ) : ℚ) := by
    rw [increment, ht, if_pos hpos]
  have hemits : scanEmits l =
      (List.range l.length).map (fun i => (((100 * (i + 1)) / l.length : ℕ) : ℤ)) := by
    rw [scanEmits, hinc, scanLoop_fst_div, scanLoopDiv_all_visible _ _ hv]
    simp
  have hbound : ∀ v ∈ scanEmits l, 0 ≤ v ∧ v ≤ 100 := by
    intro v hvmem
    rw [hemits] at hvmem
    obtain ⟨i, hi, rfl⟩ := List.exists_of_mem_map hvmem
    refine ⟨Int.ofNat_nonneg _, ?_⟩
    have hile : i + 1 ≤ l.length := List.mem_range.mp hi
    have hdivle : (100 * (i + 1)) / l.length ≤ 100 := by
      calc (100 * (i + 1)) / l.length ≤ (100 * l.length) / l.length :=
            Nat.div_le_div_right (Nat.mul_le_mul_left 100 hile)
        _ = 100 := Nat.mul_div_cancel 100 hpos
    exact_mod_cast hdivle
  have hlen : (scanEmits l).length = l.length := by
    rw [hemits, List.length_map, List.length_range]
  have hlast : (scanEmits l).getLast? = some 100 := by
    obtain ⟨m, hm⟩ := Nat.exists_eq_succ_of_ne_zero (Nat.pos_iff_ne_zero.mp hpos)
    have h100 : (100 : ℕ) * (m + 1) / (m + 1) = 100 := Nat.mul_div_cancel 100 (by omega)
    rw [hemits, hm, List.range_succ, List.map_append, List.map_singleton,
      List.getLast?_concat]
    simp only [Nat.succ_eq_add_one]
    rw [h100]
    norm_num
  exact ⟨hemits, hbound, hlast, hlen,
    scanLoop_snd_all_visible_files (increment l) l hvis 0⟩

/-- Witness for `scan_progress_amended` on a listing of three visible
regular files. -/
theorem scan_progress_amended_witness :
    (([⟨"a", true, 1⟩, ⟨"b", true, 2⟩, ⟨"c", true, 3⟩] : List DirEntry) ≠ [] ∧
      ∀ e ∈ ([⟨"a", true, 1⟩, ⟨"b", true, 2⟩, ⟨"c", true, 3⟩] : List DirEntry),
        startsWithDot e.name = false ∧ e.isFile = true) ∧
    (scanEmits [⟨"a", true, 1⟩, ⟨"b", true, 2⟩, ⟨"c", true, 3⟩] =
      (List.range (3 : ℕ)).map (fun i => (((100 * (i + 1)) / 3 : ℕ) : ℤ)) ∧
    (∀ v ∈ scanEmits [⟨"a", true, 1⟩, ⟨"b", true, 2⟩, ⟨"c", true, 3⟩], 0 ≤ v ∧ v ≤ 100) ∧
    (scanEmits [⟨"a", true, 1⟩, ⟨"b", true, 2⟩, ⟨"c", true, 3⟩]).getLast? = some 100 ∧
    (scanEmits [⟨"a", true, 1⟩, ⟨"b", true, 2⟩, ⟨"c", true, 3⟩]).length = 3 ∧
    scanResult [⟨"a", true, 1⟩, ⟨"b", true, 2⟩, ⟨"c", true, 3⟩] =
      [(⟨"a", true, 1⟩ : DirEntry), ⟨"b", true, 2⟩, ⟨"c", true, 3⟩].map
        (fun e => (e.name, e.size))) :=
  ⟨⟨by decide, by decide⟩,
    scan_progress_amended [⟨"a", true, 1⟩, ⟨"b", true, 2⟩, ⟨"c", true, 3⟩]
      (by decide) (by decide)⟩

/-- C6 counterexample: a directory with an empty listing contains zero
visible files, yet the scan emits no progress update at all rather than
a single update of 100. -/
theorem scan_empty_dir_counterexample :
    total_files ([] : List DirEntry) = 0 ∧
    scanEmits ([] : List DirEntry) = [] ∧
    scanEmits ([] : List DirEntry) ≠ [100] := by
  refine ⟨rfl, rfl, by decide⟩

/-- C6 (amended): for every directory whose listing holds no visible
entry at all (empty, or hidden entries only), the scan emits zero
progress updates and an empty result; the per-entry increment is set to
1 instead of 100/0 when the visible total is 0, so no division by zero
occurs. -/
theorem scan_no_visible_entries_amended (l : List DirEntry)
    (h : ∀ e ∈ l, startsWithDot e.name = true) :
    scanEmits l = [] ∧ scanResult l = [] ∧ increment l = 1 := by
  have htot : total_files l = 0 := by
    unfold total_files
    rw [List.length_eq_zero]
    rw [List.filter_eq_nil_iff]
    intro e he
    simp [h e he]
  have hloop := scanLoop_all_hidden (increment l) l h 0
  refine ⟨?_, ?_, ?_⟩
  · rw [scanEmits, hloop]
  · rw [scanResult, hloop]
  · rw [increment, htot]; norm_num

/-- Witness for `scan_no_visible_entries_amended` on a listing with a
single hidden file. -/
theorem scan_no_visible_entries_amended_witness :
    (∀ e ∈ ([⟨".x", true, 3⟩] : List DirEntry), startsWithDot e.name = true) ∧
    (scanEmits [⟨".x", true, 3⟩] = [] ∧ scanResult [⟨".x", true, 3⟩] = [] ∧
      increment [⟨".x", true, 3⟩] = 1) :=
  ⟨by decide, scan_no_visible_entries_amended [⟨".x", true, 3⟩] (by decide)⟩

/-- C7: every row of a scan result comes from a listing entry that is a
plain regular file whose name does not start with a dot — hidden files
and sub-directories never appear in the result. -/
theorem scan_result_only_visible_plain_files (l : List DirEntry)
    (name : String) (size : Nat) (h : (name, size) ∈ scanResult l) :
    ∃ e ∈ l, e.isFile = true ∧ startsWithDot e.name = false ∧
      e.name = name ∧ e.size = size := by
  obtain ⟨e, he, hf, hh, hx⟩ := mem_scanLoop_snd (increment l) l 0 (name, size) h
  rw [Prod.mk.injEq] at hx
  exact ⟨e, he, hf, hh, hx.1.symm, hx.2.symm⟩

/-- Witness for `scan_result_only_visible_plain_files` on the spec's
scenario listing: a.txt (10 bytes), .hidden (5 bytes) and a sub-directory
b. -/
theorem scan_result_only_visible_plain_files_witness :
    (("a.txt", 10) ∈ scanResult [⟨"a.txt", true, 10⟩, ⟨".hidden", true, 5⟩, ⟨"b", false, 0⟩]) ∧
    (∃ e ∈ ([⟨"a.txt", true, 10⟩, ⟨".hidden", true, 5⟩, ⟨"b", false, 0⟩] : List DirEntry),
      e.isFile = true ∧ startsWithDot e.name = false ∧
      e.name = "a.txt" ∧ e.size = 10) :=
  ⟨by decide,
    scan_result_only_visible_plain_files
      [⟨"a.txt", true, 10⟩, ⟨".hidden", true, 5⟩, ⟨"b", false, 0⟩] "a.txt" 10 (by decide)⟩

lemma urandomBytes_length (R : Nat → Nat → Nat) (call n : Nat) :
    (urandomBytes R call n).length = n := by
  simp [urandomBytes]

lemma removeAfter_trace (fr : FillResult) (st : FsState) :
    (removeAfter fr st).trace = fr.trace := by
  cases hfr : fr.err with
  | some e => simp [removeAfter, hfr]
  | none =>
    cases hu : st.unlinkErr with
    | some e => simp [removeAfter, hfr, hu]
    | none => simp [removeAfter, hfr, hu]

lemma zero_fill_err (p : Nat) : ∀ c : Bytes, (zero_fill none p c).err = none := by
  induction p with
  | zero => intro c; rfl
  | succ p ih => intro c; simp only [zero_fill]; exact ih _

lemma zero_fill_trace_length (p : Nat) : ∀ c : Bytes,
    (zero_fill none p c).trace.length = p := by
  induction p with
  | zero => intro c; rfl
  | succ p ih => intro c; simp only [zero_fill, List.length_cons]; rw [ih]

lemma zero_fill_content_length (p : Nat) : ∀ c : Bytes,
    (zero_fill none p c).content.length = c.length * 2 ^ p := by
  induction p with
  | zero => intro c; simp [zero_fill]
  | succ p ih =>
    intro c
    simp only [zero_fill]
    rw [ih]
    simp only [List.length_append, List.length_replicate]
    ring

lemma zero_fill_content_prefix (p : Nat) : ∀ c : Bytes,
    c <+: (zero_fill none p c).content := by
  induction p with
  | zero => intro c; simp [zero_fill]
  | succ p ih =>
    intro c
    simp only [zero_fill]
    have h1 : c <+: c ++ List.replicate c.length 0 := List.prefix_append c _
    exact h1.trans (ih (c ++ List.replicate c.length 0))

lemma random_fill_content_length (R : Nat → Nat → Nat) (p : Nat) :
    ∀ (call : Nat) (c : Bytes),
      (random_fill R none call p c).content.length = c.length * 2 ^ p := by
  induction p with
  | zero => intro call c; simp [random_fill]
  | succ p ih =>
    intro call c
    simp only [random_fill]
    rw [ih]
    simp only [List.length_append, urandomBytes_length]
    ring

lemma random_fill_content_prefix (R : Nat → Nat → Nat) (p : Nat) :
    ∀ (call : Nat) (c : Bytes), c <+: (random_fill R none call p c).content := by
  induction p with
  | zero => intro call c; simp [random_fill]
  | succ p ih =>
    intro call c
    simp only [random_fill]
    have h1 : c <+: c ++ urandomBytes R call c.length := List.prefix_append c _
    exact h1.trans (ih (call + 1) _)

lemma random_fill_three_trace (R : Nat → Nat → Nat) (call : Nat) (c : Bytes) :
    (random_fill R none call 3 c).trace =
      [urandomBytes R call c.length,
       urandomBytes R (call + 1) (2 * c.length),
       urandomBytes R (call + 2) (4 * c.length)] := by
  have h2 : c.length + c.length = 2 * c.length := by omega
  have h4 : 2 * c.length + 2 * c.length = 4 * c.length := by omega
  simp only [random_fill, List.length_append, urandomBytes_length]
  simp only [h2, h4]

/-- C1 counterexample: a SecureDeleteThread run with method 'zero' and
passes = 0 raises nothing — it performs zero overwrite writes and still
removes the file, so no InvalidArgument failure occurs and the file does
not still exist at its path afterwards. -/
theorem passes_zero_removes_file_counterexample :
    runThread R0 encShift ("zero") 0 ⟨some [7, 7], none, none⟩ =
      ⟨[], none, none⟩ := by
  decide

/-- C1 (amended): the range check on passes lives only in the GUI caller
— validate_passes is false outside [1,99] and secure_delete_file then
returns before constructing the thread, so no I/O happens and the file is
untouched; SecureDeleteThread.run itself never validates: with passes = 0
it writes nothing and still unlinks the file, and with passes = 100 it
performs all 100 passes. -/
theorem passes_validation_amended (R : Nat → Nat → Nat)
    (enc : Bytes → Bytes → Bytes → Bytes) (method : String) (p : Nat)
    (st : FsState) (hp : ¬(1 ≤ p ∧ p ≤ 99)) :
    validate_passes p = false ∧
    secure_delete_file R enc method p st = none ∧
    (p = 0 → st.unlinkErr = none →
      runThread R enc ("zero") p st = ⟨[], none, none⟩) ∧
    (p = 100 → st.writeErr = none →
      (runThread R enc ("zero") p st).trace.length = 100) := by
  have hv : validate_passes p = false := by
    by_cases h1 : 1 ≤ p
    · have h2 : ¬ p ≤ 99 := fun h2 => hp ⟨h1, h2⟩
      simp [validate_passes, h2]
    · simp [validate_passes, h1]
  refine ⟨hv, ?_, ?_, ?_⟩
  · rw [secure_delete_file, hv]
    simp
  · rintro rfl hu
    simp [runThread, zero_fill, removeAfter, hu]
  · rintro rfl hw
    have hrun : runThread R enc ("zero") 100 st =
        removeAfter (zero_fill st.writeErr 100 (st.contents.getD [])) st := by
      simp [runThread]
    rw [hrun, removeAfter_trace, hw, zero_fill_trace_length]

/-- Witness for `passes_validation_amended` at passes = 0. -/
theorem passes_validation_amended_witness :
    ¬((1 : ℕ) ≤ 0 ∧ (0 : ℕ) ≤ 99) ∧
    (validate_passes 0 = false ∧
     secure_delete_file R0 encShift ("zero") 0 ⟨some [1], none, none⟩ = none ∧
     ((0 : ℕ) = 0 → (⟨some [1], none, none⟩ : FsState).unlinkErr = none →
       runThread R0 encShift ("zero") 0 ⟨some [1], none, none⟩ = ⟨[], none, none⟩) ∧
     ((0 : ℕ) = 100 → (⟨some [1], none, none⟩ : FsState).writeErr = none →
       (runThread R0 encShift ("zero") 0 ⟨some [1], none, none⟩).trace.length = 100)) :=
  ⟨by decide,
    passes_validation_amended R0 encShift ("zero") 0 ⟨some [1], none, none⟩ (by decide)⟩

/-- C2 (evaluation at the failing input): ZeroFill with passes = 2 on a
file holding the single byte 1 (so S = 1).  The second pass writes a
buffer of 2 zero bytes, not S = 1, because the buffer length is re-read
after the first pass appended; the content grows to [1, 0, 0, 0] (the
original byte is never overwritten) instead of staying at length S, and
the file is then removed.  Only the removal clause of the claim holds. -/
theorem zero_fill_failing_input_eval :
    zero_fill none 2 [1] = ⟨[[0], [0, 0]], [1, 0, 0, 0], none⟩ ∧
    runThread R0 encShift ("zero") 2 ⟨some [1], none, none⟩ =
      ⟨[[0], [0, 0]], none, none⟩ := by
  decide

/-- C3: because the fill helpers open the file in append mode, the
original content stays an untouched prefix under both zero_fill and
random_fill, and since the pass buffer length is re-read from the current
size each pass, p passes on a file of initial size S > 0 leave it with
size S * 2^p at the moment of unlink. -/
theorem append_mode_growth (R : Nat → Nat → Nat) (call p : Nat) (c : Bytes)
    (_hc : 0 < c.length) :
    (zero_fill none p c).content.length = c.length * 2 ^ p ∧
    c <+: (zero_fill none p c).content ∧
    (random_fill R none call p c).content.length = c.length * 2 ^ p ∧
    c <+: (random_fill R none call p c).content :=
  ⟨zero_fill_content_length p c, zero_fill_content_prefix p c,
   random_fill_content_length R p call c, random_fill_content_prefix R p call c⟩

/-- Witness for `append_mode_growth` on a 1-byte file with 2 passes. -/
theorem append_mode_growth_witness :
    0 < ([1] : Bytes).length ∧
    ((zero_fill none 2 [1]).content.length = ([1] : Bytes).length * 2 ^ 2 ∧
     [1] <+: (zero_fill none 2 [1]).content ∧
     (random_fill R0 none 0 2 [1]).content.length = ([1] : Bytes).length * 2 ^ 2 ∧
     [1] <+: (random_fill R0 none 0 2 [1]).content) :=
  ⟨by decide, append_mode_growth R0 0 2 [1] (by decide)⟩

/-- C4 (evaluation at the failing input): aes_wipe on a 1-byte file reads
the whole content and encrypts it once, but the append-mode write lands
the ciphertext after the plaintext instead of at offset 0: the file
doubles to 2 bytes with the original byte still first, so the overwrite
extends the file and destroys nothing before the removal. -/
theorem aes_wipe_failing_input_eval :
    aes_wipe R0 encShift none [9] = ⟨[[10]], [9, 10], none⟩ ∧
    (aes_wipe R0 encShift none [9]).content.length = 2 ∧
    runThread R0 encShift ("aes") 0 ⟨some [9], none, none⟩ =
      ⟨[[10]], none, none⟩ := by
  decide

/-- C8: a run with method 'dod' writes exactly 3 passes whatever the
caller-supplied passes value is, each pass being the next os.urandom
buffer of the file's then-current size. -/
theorem dod_always_three_passes (R : Nat → Nat → Nat)
    (enc : Bytes → Bytes → Bytes → Bytes) (p : Nat) (st : FsState)
    (hw : st.writeErr = none) :
    (runThread R enc ("dod") p st).trace =
      [urandomBytes R 0 ((st.contents.getD []).length),
       urandomBytes R 1 (2 * (st.contents.getD []).length),
       urandomBytes R 2 (4 * (st.contents.getD []).length)] ∧
    (runThread R enc ("dod") p st).trace.length = 3 := by
  have hrun : (runThread R enc ("dod") p st).trace =
      (random_fill R none 0 3 (st.contents.getD [])).trace := by
    simp [runThread, removeAfter_trace, dod_standard, hw]
  constructor
  · rw [hrun, random_fill_three_trace R 0 (st.contents.getD [])]
  · rw [hrun, random_fill_three_trace R 0 (st.contents.getD [])]
    norm_num

/-- Witness for `dod_always_three_passes` with requested passes = 10. -/
theorem dod_always_three_passes_witness :
    (⟨some [1, 2], none, none⟩ : FsState).writeErr = none ∧
    ((runThread R0 encShift ("dod") 10 ⟨some [1, 2], none, none⟩).trace =
      [urandomBytes R0 0 (((⟨some [1, 2], none, none⟩ : FsState).contents.getD []).length),
       urandomBytes R0 1 (2 * (((⟨some [1, 2], none, none⟩ : FsState).contents.getD []).length)),
       urandomBytes R0 2 (4 * (((⟨some [1, 2], none, none⟩ : FsState).contents.getD []).length))] ∧
     (runThread R0 encShift ("dod") 10 ⟨some [1, 2], none, none⟩).trace.length = 3) :=
  ⟨rfl, dod_always_three_passes R0 encShift 10 ⟨some [1, 2], none, none⟩ rfl⟩

/-- C9 counterexample: with errno 13 injected, a run whose single
overwrite pass completes and whose unlink then fails yields the very
same uncaught error value as a run whose first write fails before any
overwrite — the code reports no PartialErase outcome distinct from an
IoError outcome. -/
theorem unlink_failure_same_error_counterexample :
    (runThread R0 encShift ("zero") 1 ⟨some [5], none, some 13⟩).err = some 13 ∧
    (runThread R0 encShift ("zero") 1 ⟨some [5], none, some 13⟩).trace.length = 1 ∧
    (runThread R0 encShift ("zero") 1 ⟨some [5], none, some 13⟩).fs = some [5, 0] ∧
    (runThread R0 encShift ("zero") 1 ⟨some [5], some 13, none⟩).err = some 13 ∧
    (runThread R0 encShift ("zero") 1 ⟨some [5], some 13, none⟩).trace.length = 0 ∧
    (runThread R0 encShift ("zero") 1 ⟨some [5], none, some 13⟩).err =
      (runThread R0 encShift ("zero") 1 ⟨some [5], some 13, none⟩).err := by
  decide

/-- C9 (amended): when every overwrite pass completes and os.remove then
fails, run raises the unlink errno uncaught while the written content
stays on disk; the identical error value results from a write failure
during the passes, so nothing distinguishes the two cases — the thread
has no outcome reporting at all, let alone a PartialErase distinct from
IoError. -/
theorem unlink_failure_amended (R : Nat → Nat → Nat)
    (enc : Bytes → Bytes → Bytes → Bytes) (p : Nat) (st : FsState) (e : Nat)
    (hw : st.writeErr = none) (hu : st.unlinkErr = some e) :
    (runThread R enc ("zero") p st).err = some e ∧
    (runThread R enc ("zero") p st).fs =
      some (zero_fill none p (st.contents.getD [])).content ∧
    (runThread R enc ("zero") 1 ⟨st.contents, some e, none⟩).err = some e := by
  have hrun : runThread R enc ("zero") p st =
      removeAfter (zero_fill none p (st.contents.getD [])) st := by
    simp [runThread, hw]
  have hfr := zero_fill_err p (st.contents.getD [])
  refine ⟨?_, ?_, ?_⟩
  · rw [hrun]
    simp [removeAfter, hfr, hu]
  · rw [hrun]
    simp [removeAfter, hfr, hu]
  · simp [runThread, zero_fill, removeAfter]

/-- Witness for `unlink_failure_amended` with errno 13 and one pass. -/
theorem unlink_failure_amended_witness :
    ((⟨some [5], none, some 13⟩ : FsState).writeErr = none ∧
     (⟨some [5], none, some 13⟩ : FsState).unlinkErr = some 13) ∧
    ((runThread R0 encShift ("zero") 1 ⟨some [5], none, some 13⟩).err = some 13 ∧
     (runThread R0 encShift ("zero") 1 ⟨some [5], none, some 13⟩).fs =
       some (zero_fill none 1
         ((⟨some [5], none, some 13⟩ : FsState).contents.getD [])).content ∧
     (runThread R0 encShift ("zero") 1
       ⟨(⟨some [5], none, some 13⟩ : FsState).contents, some 13, none⟩).err = some 13) :=
  ⟨⟨rfl, rfl⟩,
    unlink_failure_amended R0 encShift 1 ⟨some [5], none, some 13⟩ 13 rfl rfl⟩

/-- C10: a run whose method string matches none of 'zero', 'random',
'dod', 'aes' performs no overwrite write at all and still unconditionally
removes the file — the entry is deleted with its content never destroyed,
and no rejection of the unknown method happens. -/
theorem unknown_method_skips_overwrite (R : Nat → Nat → Nat)
    (enc : Bytes → Bytes → Bytes → Bytes) (method : String) (p : Nat)
    (st : FsState) (h1 : method ≠ "zero") (h2 : method ≠ "random")
    (h3 : method ≠ "dod") (h4 : method ≠ "aes") (hu : st.unlinkErr = none) :
    runThread R enc method p st = ⟨[], none, none⟩ := by
  simp only [runThread]
  rw [if_neg h1, if_neg h2, if_neg h3, if_neg h4, hu]

/-- Witness for `unknown_method_skips_overwrite` with method 'shred'. -/
theorem unknown_method_skips_overwrite_witness :
    (("shred" : String) ≠ "zero" ∧ ("shred" : String) ≠ "random" ∧
     ("shred" : String) ≠ "dod" ∧ ("shred" : String) ≠ "aes" ∧
     (⟨some [1, 2, 3], none, none⟩ : FsState).unlinkErr = none) ∧
    runThread R0 encShift ("shred") 5 ⟨some [1, 2, 3], none, none⟩ =
      ⟨[], none, none⟩ :=
  ⟨⟨by decide, by decide, by decide, by decide, rfl⟩,
    unknown_method_skips_overwrite R0 encShift ("shred") 5 ⟨some [1, 2, 3], none, none⟩
      (by decide) (by decide) (by decide) (by decide) rfl⟩

end ShredSpace
